import Mathlib

/-!
Shallow embedding of the matching and disambiguation core of
`cl/corpus_importer/management/commands/georgia_state_university.py`.

The embedding models:
  * `lookup_row`, its case-name parsing (`str.split(' v. ', 1)` plus
    tuple unpacking), the candidate-pool query, and the five staged
    filters including `make_party_q`;
  * `filter_des` with the empty-description fallback and the eager
    `any([...])` rule list guarded by `try/except IndexError`;
  * the single-entry shortcut of `download_documents`.

Python strings are Lean `String`s; `str.lower()` is modelled as an
ASCII lowercase map (all inputs of interest are ASCII); dates are day
numbers (`Int`), so `datetime.strptime` is modelled as an
already-parsed field and `timedelta(days=365*5)` is the integer 1825.
Django querysets over `FjcIntegratedDatabase` are lists of records;
`filter` is `List.filter`, `order_by('-date_filed')` is an insertion
sort by descending `date_filed`, and the `__iexact`, `__istartswith`
and `__icontains` lookups are case-insensitive string comparisons.
Raising code is modelled with `Option`/`Except`.
-/

/-- ASCII lowercase of one character, the fragment of `str.lower()`
exercised by this command's inputs. -/
def lcChar (c : Char) : Char :=
  if 'A' ≤ c ∧ c ≤ 'Z' then Char.ofNat (c.toNat + 32) else c

/-- `str.lower()`. -/
def sLower (s : String) : String := ⟨s.data.map lcChar⟩

/-- `s[:n]` on a Python string. -/
def pyTake (n : Nat) (s : String) : String := ⟨s.data.take n⟩

/-- `word.endswith('.')`. -/
def endsWithDot (w : String) : Bool := w.data.getLast? == some '.'

/-- Substring test on character lists (`pat` occurs inside the list). -/
def isInfixOfCL (pat : List Char) : List Char → Bool
  | [] => pat.isEmpty
  | c :: cs => pat.isPrefixOf (c :: cs) || isInfixOfCL pat cs

/-- Django `field__icontains=word`: case-insensitive substring test. -/
def icontains (fieldVal word : String) : Bool :=
  isInfixOfCL (sLower word).data (sLower fieldVal).data

/-- Django `field__istartswith=pre`. -/
def istartswith (fieldVal pre : String) : Bool :=
  (sLower pre).data.isPrefixOf (sLower fieldVal).data

/-- Django `field__iexact=v`. -/
def iexact (fieldVal v : String) : Bool := sLower fieldVal == sLower v

/-- Accumulator pass of whitespace splitting: `acc` holds the current
word reversed. -/
def wordsAux : List Char → List Char → List String
  | [], acc => if acc.isEmpty then [] else [⟨acc.reverse⟩]
  | c :: cs, acc =>
    if c.isWhitespace then
      if acc.isEmpty then wordsAux cs [] else ⟨acc.reverse⟩ :: wordsAux cs []
    else wordsAux cs (c :: acc)

/-- Python `str.split()` with no argument: split on runs of whitespace,
dropping empty tokens. -/
def tokenize (s : String) : List String := wordsAux s.data []

/-- Split a character list at the first occurrence of `pat`, returning
the parts before and after it, or `none` when `pat` never occurs. -/
def splitFirst (pat : List Char) : List Char → Option (List Char × List Char)
  | [] => none
  | c :: cs =>
    if pat.isPrefixOf (c :: cs) then some ([], (c :: cs).drop pat.length)
    else
      match splitFirst pat cs with
      | some (pre, post) => some (c :: pre, post)
      | none => none

/-- Python `s.split(sep, 1)`: one element when `sep` is absent, two
otherwise. -/
def pySplit1 (sep s : String) : List String :=
  match splitFirst sep.data s.data with
  | none => [s]
  | some (pre, post) => [⟨pre⟩, ⟨post⟩]

/-- Number of positions of `s` at which `pat` starts. -/
def countOccAux (pat : List Char) : List Char → Nat
  | [] => 0
  | c :: cs => (if pat.isPrefixOf (c :: cs) then 1 else 0) + countOccAux pat cs

/-- Occurrence count of `pat` inside `s`. -/
def countOcc (pat s : String) : Nat := countOccAux pat.data s.data

/-- The exceptions the parsing in `lookup_row` tries to catch. -/
inductive ParseErr
  | indexError
  | valueError
deriving DecidableEq

/-- Python tuple unpacking `a, b = l`: raises `ValueError` whenever the
list does not have exactly two elements (it never raises `IndexError`). -/
def pyUnpack2 : List String → Except ParseErr (String × String)
  | [a, b] => .ok (a, b)
  | _ => .error .valueError

/-- `row['Case Name'].lower().split(' v. ', 1)` followed by the
two-variable unpacking. -/
def parseName (name : String) : Except ParseErr (String × String) :=
  pyUnpack2 (pySplit1 " v. " (sLower name))

/-- Jurisdictions of `Court` relevant to the query. -/
inductive Jurisdiction
  | federalDistrict
  | federalBankruptcy
  | other
deriving DecidableEq

/-- Modelled from the spec: `CV_2017` is the constant from
`cl.recap.constants` (not under `src/`) marking records of the civil
2017 dataset; only equality with it is ever used, so its numeric value
is arbitrary. -/
def CV_2017 : Nat := 2017

/-- One `FjcIntegratedDatabase` record, restricted to the fields the
matcher reads.  `district_fjc_court_id` and `district_jurisdiction`
stand for the `district__fjc_court_id` / `district__jurisdiction`
joins. -/
structure CaseRecord where
  pk : Nat
  plaintiff : String
  defendant : String
  district_fjc_court_id : String
  district_jurisdiction : Jurisdiction
  date_filed : Int
  docket_number : String
  dataset_source : Nat
deriving DecidableEq

/-- The fields of a CSV row that `lookup_row` reads; `date` is the
already-parsed `Date` column (see the header comment). -/
structure Row where
  case_name : String
  date : Int
  ao_id : String
deriving DecidableEq

/-- `CASE_NAME_IABBREVIATIONS`: a case-insensitive mapping from
abbreviated tokens to their expansions, loaded from `reporters_db`
(external data), hence a parameter of the embedding. -/
def AbbrevTable : Type := List (String × List String)

/-- Case-insensitive key lookup of `CaseInsensitiveDict`. -/
def lookupCI (tbl : AbbrevTable) (w : String) : Option (List String) :=
  (tbl.find? fun p => sLower p.1 == sLower w).map (fun p => p.2)

/-- The per-token `Q` object built in the loop of `make_party_q`:
an OR over the token and its expansions when the token ends in a
period and is a key of the table, the bare `icontains` otherwise. -/
def tokenPred (tbl : AbbrevTable) (word fieldVal : String) : Bool :=
  if endsWithDot word then
    match lookupCI tbl word with
    | some abbrevs =>
        icontains fieldVal word || abbrevs.any fun ab => icontains fieldVal ab
    | none => icontains fieldVal word
  else icontains fieldVal word

/-- Python slice `l[start:stop]` with optional nonnegative bounds. -/
def pySlice (sl : Option Nat × Option Nat) (l : List α) : List α :=
  let en := match sl.2 with | none => l.length | some e => e
  (l.take en).drop (sl.1.getD 0)

/-- `make_party_q(party, lookup_field, term_slice)`: AND of the
per-token predicates over the sliced whitespace split of `party`.
`field` selects the record field named by `lookup_field`. -/
def make_party_q (tbl : AbbrevTable) (party : String)
    (field : CaseRecord → String) (sl : Option Nat × Option Nat)
    (r : CaseRecord) : Bool :=
  (pySlice sl (tokenize party)).all fun w => tokenPred tbl w (field r)

/-- Descending `date_filed` order used by `order_by('-date_filed')`. -/
def recGE (a b : CaseRecord) : Prop := b.date_filed ≤ a.date_filed

instance : DecidableRel recGE :=
  fun a b => inferInstanceAs (Decidable (b.date_filed ≤ a.date_filed))

instance : IsTotal CaseRecord recGE :=
  ⟨fun a b => le_total b.date_filed a.date_filed⟩

instance : IsTrans CaseRecord recGE :=
  ⟨fun _ _ _ h1 h2 => le_trans h2 h1⟩

/-- The conditions of the `orig_query` filter and exclude. -/
def poolPred (row : Row) (r : CaseRecord) : Bool :=
  r.dataset_source == CV_2017 &&
  r.district_fjc_court_id == row.ao_id &&
  decide (r.date_filed ≤ row.date) &&
  decide (row.date - 1825 ≤ r.date_filed) &&
  !(r.district_jurisdiction == Jurisdiction.federalBankruptcy)

/-- `orig_query`: the candidate pool, filtered and ordered by
`date_filed` descending. -/
def poolOf (db : List CaseRecord) (row : Row) : List CaseRecord :=
  List.insertionSort recGE (db.filter (poolPred row))

/-- The messages `lookup_row` logs, tagged with the stage index where
one applies. -/
inductive LogMsg
  | missingSep
  | multipleSep
  | broadening (stage : Nat)
  | oneResult (stage : Nat)
  | severalResults (stage : Nat) (count : Nat)
  | tooMany (stage : Nat)
deriving DecidableEq

/-- Which warning each caught exception produces: the `IndexError`
handler logs the missing-separator message, the `ValueError` handler
the multiple-separator message. -/
def logOfErr : ParseErr → LogMsg
  | .indexError => .missingSep
  | .valueError => .multipleSep

/-- Observable outcome of `lookup_row`: the returned record (if any),
the log, and the stage indices whose store query was evaluated. -/
structure LookupOut where
  result : Option CaseRecord
  log : List LogMsg
  queried : List Nat
deriving DecidableEq

/-- The five `filter_tuples` of `lookup_row`, as predicates over a
candidate record, built from the parsed plaintiff and defendant. -/
def stagePredList (tbl : AbbrevTable) (p d : String) :
    List (CaseRecord → Bool) :=
  [ fun r => iexact r.plaintiff (pyTake 30 p) && iexact r.defendant (pyTake 30 d),
    fun r => istartswith r.plaintiff (pyTake 30 p) &&
             istartswith r.defendant (pyTake 30 d),
    fun r => make_party_q tbl d CaseRecord.defendant (none, some 3) r &&
             make_party_q tbl p CaseRecord.plaintiff (none, some 3) r,
    fun r => make_party_q tbl d CaseRecord.defendant (none, some 1) r &&
             make_party_q tbl p CaseRecord.plaintiff (none, some 1) r,
    fun r => make_party_q tbl p CaseRecord.plaintiff (some 1, some 2) r &&
             make_party_q tbl d CaseRecord.defendant (none, some 1) r ]

/-- The `for args, kwargs in filter_tuples` loop: each iteration
filters the pool, counts, and either broadens (count 0), returns
`results[0]` (count 1 or 1 < count < 5), or gives up (count ≥ 5). -/
def stageLoop (pool : List CaseRecord) :
    List (CaseRecord → Bool) → Nat → LookupOut
  | [], _ => ⟨none, [], []⟩
  | pred :: rest, i =>
    let results := pool.filter pred
    let count := results.length
    if count = 0 then
      let out := stageLoop pool rest (i + 1)
      ⟨out.result, .broadening i :: out.log, i :: out.queried⟩
    else if count = 1 then ⟨results.head?, [.oneResult i], [i]⟩
    else if count < 5 then ⟨results.head?, [.severalResults i count], [i]⟩
    else ⟨none, [.tooMany i], [i]⟩

/-- `lookup_row(row)` over a store `db` and abbreviation table `tbl`. -/
def lookup_row (db : List CaseRecord) (tbl : AbbrevTable) (row : Row) :
    LookupOut :=
  match parseName row.case_name with
  | .error e => ⟨none, [logOfErr e], []⟩
  | .ok (p, d) => stageLoop (poolOf db row) (stagePredList tbl p d) 0

/-- The predicate of stage `i` (0-based). -/
def nthStagePred (tbl : AbbrevTable) (p d : String) (i : Nat) :
    CaseRecord → Bool :=
  (stagePredList tbl p d).getD i (fun _ => false)

/-- The records stage `i` would return, in pool order. -/
def stageResults (db : List CaseRecord) (tbl : AbbrevTable) (row : Row)
    (p d : String) (i : Nat) : List CaseRecord :=
  (poolOf db row).filter (nthStagePred tbl p d i)

/-- The candidate count of stage `i`. -/
def stageCount (db : List CaseRecord) (tbl : AbbrevTable) (row : Row)
    (p d : String) (i : Nat) : Nat :=
  (stageResults db tbl row p d i).length

/-- Modelled from the spec: `RECAPDocument.PACER_DOCUMENT`, the
constant (not under `src/`) marking the designated primary document
kind; only equality with it is used, so its value is arbitrary. -/
def PACER_DOCUMENT : Nat := 1

/-- A `RECAPDocument`, restricted to the fields `filter_des` reads. -/
structure RECAPDoc where
  document_type : Nat
  description : String
deriving DecidableEq

/-- A docket entry, restricted to the fields `filter_des` reads. -/
structure DocketEntry where
  description : String
  recap_documents : List RECAPDoc
deriving DecidableEq

/-- Django `queryset.get(...)`: the unique matching element, raising
(`none`) when there are zero or several. -/
def pyGetUnique (docs : List RECAPDoc) : Option RECAPDoc :=
  match docs.filter (fun doc => doc.document_type == PACER_DOCUMENT) with
  | [doc] => some doc
  | _ => none

/-- The description text `filter_des` classifies: the entry's own
description, or — when it is empty — the description of its sole
`PACER_DOCUMENT`, whose lookup can raise. -/
def resolveDesc (de : DocketEntry) : Option String :=
  if de.description == "" then
    (pyGetUnique de.recap_documents).map (fun doc => doc.description)
  else some de.description

/-- `core_words` of `filter_des`, verbatim (note the trailing space in
the string before `recommendation`). -/
def coreWords : List String :=
  ["decided", "decision", "denial", "denied", "denying", "entered",
   "entry", "finding", "findings", "grant", "granted", "granting",
   "judge", "magistrate", "opinion", "order", "ordered ",
   "recommendation"]

/-- `prefix_words` of `filter_des`, verbatim. -/
def prefixWords : List String :=
  ["amended", "corrected", "final", "further", "initial", "modified",
   "revised"]

/-- `pre_prefix_words` of `filter_des`, verbatim. -/
def prePrefixWords : List String := ["memorandum", "report"]

/-- `words[i]`: `none` models an `IndexError`. -/
def idx : List String → Nat → Option String
  | [], _ => none
  | w :: _, 0 => some w
  | _ :: ws, n + 1 => idx ws n

/-- `words[0] in core_words`. -/
def rule1 (ws : List String) : Option Bool :=
  match idx ws 0 with
  | none => none
  | some w0 => some (coreWords.contains w0)

/-- `words[0] in prefix_words and words[1] in core_words`, with
Python's short-circuit `and`. -/
def rule2 (ws : List String) : Option Bool :=
  match idx ws 0 with
  | none => none
  | some w0 =>
    if prefixWords.contains w0 then
      match idx ws 1 with
      | none => none
      | some w1 => some (coreWords.contains w1)
    else some false

/-- `words[0] in pre_prefix_words and (words[1] in core_words or
words[2] in core_words)`, with short-circuit `and`/`or`. -/
def rule3 (ws : List String) : Option Bool :=
  match idx ws 0 with
  | none => none
  | some w0 =>
    if prePrefixWords.contains w0 then
      match idx ws 1 with
      | none => none
      | some w1 =>
        if coreWords.contains w1 then some true
        else
          match idx ws 2 with
          | none => none
          | some w2 => some (coreWords.contains w2)
    else some false

/-- `words[0] in prefix_words and words[1] in pre_prefix_words and
(words[2] in core_words or words[3] in core_words)`. -/
def rule4 (ws : List String) : Option Bool :=
  match idx ws 0 with
  | none => none
  | some w0 =>
    if prefixWords.contains w0 then
      match idx ws 1 with
      | none => none
      | some w1 =>
        if prePrefixWords.contains w1 then
          match idx ws 2 with
          | none => none
          | some w2 =>
            if coreWords.contains w2 then some true
            else
              match idx ws 3 with
              | none => none
              | some w3 => some (coreWords.contains w3)
        else some false
    else some false

/-- `any([rule1, rule2, rule3, rule4])`: the list is built eagerly, so
an `IndexError` in any rule aborts the whole classification. -/
def anyRules (ws : List String) : Option Bool :=
  match rule1 ws, rule2 ws, rule3 ws, rule4 ws with
  | some b1, some b2, some b3, some b4 => some (b1 || b2 || b3 || b4)
  | _, _, _, _ => none

/-- The kept/skipped decision of the `try` block: an `IndexError`
(`none`) is caught by `continue`, i.e. the entry is not kept. -/
def codeKeep (ws : List String) : Bool := (anyRules ws).getD false

/-- `filter_des(des)`: keeps the entries whose rules fire, skips the
ones whose rule evaluation raises `IndexError`, and raises
(`Except.error`) when an entry's empty-description fallback finds zero
or several primary documents — that lookup sits outside the `try`. -/
def filter_des : List DocketEntry → Except Unit (List DocketEntry)
  | [] => .ok []
  | de :: rest =>
    match resolveDesc de with
    | none => .error ()
    | some desc =>
      match filter_des rest with
      | .error e => .error e
      | .ok good =>
        .ok (if codeKeep (tokenize (sLower desc)) then de :: good else good)

/-- The entry-selection step of `download_documents` on the entries of
one date: `none` when the row is skipped for lack of entries, the sole
entry unconditionally when there is one, `filter_des` otherwise. -/
def select_good_des : List DocketEntry → Option (Except Unit (List DocketEntry))
  | [] => none
  | [de] => some (.ok [de])
  | des => some (filter_des des)

/-- Spec-side token test: `l` contains token `i`, with an out-of-range
index counting as a failed test rather than an error. -/
def memAt (ws : List String) (i : Nat) (l : List String) : Bool :=
  match idx ws i with
  | some w => l.contains w
  | none => false

/-- Modelled from the spec: the four positional grammar rules with an
out-of-range rule treated as not matched while the other rules are
still evaluated ("If a rule indexes beyond the token sequence's
length, treat that rule as not matched ... and continue evaluating
remaining rules"). -/
def specKeep (ws : List String) : Bool :=
  memAt ws 0 coreWords ||
  (memAt ws 0 prefixWords && memAt ws 1 coreWords) ||
  (memAt ws 0 prePrefixWords && (memAt ws 1 coreWords || memAt ws 2 coreWords)) ||
  (memAt ws 0 prefixWords && memAt ws 1 prePrefixWords &&
    (memAt ws 2 coreWords || memAt ws 3 coreWords))

/-- The token sequence an entry is classified by, given that its
description resolves. -/
def resolvedTokens (de : DocketEntry) : List String :=
  tokenize (sLower ((resolveDesc de).getD ""))

/-- A sample store record: forum `"17"`, civil dataset, district
jurisdiction. -/
def mkRec (pk : Nat) (p d : String) (date : Int) : CaseRecord :=
  ⟨pk, p, d, "17", .federalDistrict, date, "1:16-cv-01234", CV_2017⟩

/-- A case name with two `" v. "` separators. -/
def rowTwoSep : Row := ⟨"Fox v. Hen v. Wolf", 1000, "17"⟩

/-- A case name with no `" v. "` separator. -/
def rowNoSep : Row := ⟨"Smith", 1000, "17"⟩

/-- A record whose parties equal the two-separator row's parse. -/
def recFox : CaseRecord := mkRec 7 "Fox" "Hen v. Wolf" 500

/-- A row whose plaintiff has a single token. -/
def rowOneTok : Row := ⟨"Smith v. Doe", 1000, "17"⟩

/-- A record reached only by stage 5 of `rowOneTok`'s query: the
defendant contains "doe" but the plaintiff does not contain "smith". -/
def recStage5 : CaseRecord := mkRec 9 "Jones, Robert" "Acme Doe Holdings" 400

/-- A row matched exactly by several records. -/
def rowExact : Row := ⟨"Smith, John v. Doe Corp.", 1000, "17"⟩

/-- Five records that all match stage 1 of `rowExact`'s query. -/
def dbFive : List CaseRecord :=
  [mkRec 1 "Smith, John" "Doe Corp." 100, mkRec 2 "Smith, John" "Doe Corp." 200,
   mkRec 3 "Smith, John" "Doe Corp." 300, mkRec 4 "Smith, John" "Doe Corp." 400,
   mkRec 5 "Smith, John" "Doe Corp." 500]

/-- Three records differing only by `date_filed`. -/
def dbThree : List CaseRecord :=
  [mkRec 1 "Smith, John" "Doe Corp." 100, mkRec 2 "Smith, John" "Doe Corp." 300,
   mkRec 3 "Smith, John" "Doe Corp." 200]

/-- The most recently filed of `dbThree`. -/
def recLatest : CaseRecord := mkRec 2 "Smith, John" "Doe Corp." 300

/-- An abbreviation table with the entry of the spec's example. -/
def demoTbl : AbbrevTable := [("Assn.", ["Association"])]

/-- A record whose defendant contains "Association" but not "assn.". -/
def recAssn : CaseRecord := mkRec 11 "Smith" "National Association of Realtors" 600

/-- Entry kept by rule 1 ("order" is a core word). -/
def deOrder : DocketEntry := ⟨"Order granting motion to dismiss", []⟩

/-- Entry matching no rule. -/
def deLetter : DocketEntry := ⟨"Letter from counsel", []⟩

/-- Entry with an empty description and a sole primary document whose
description is kept by rule 4. -/
def deFallback : DocketEntry :=
  ⟨"", [⟨PACER_DOCUMENT, "Amended memorandum opinion and order"⟩]⟩

/-- Entry with an empty description and no documents at all: its
fallback lookup raises. -/
def deBad : DocketEntry := ⟨"", []⟩

/-- Entry whose rule evaluation raises `IndexError` (rule 4 reads
`words[2]` of a two-token description). -/
def deShort : DocketEntry := ⟨"Amended memorandum", []⟩

/-- Entry whose first token is `"ordered"` — not equal to the
core-words element `"ordered "` — and which matches no other rule. -/
def deOrdered : DocketEntry := ⟨"Ordered adjudged and decreed", []⟩

lemma mem_of_containsStr {l : List String} {w : String}
    (h : l.contains w = true) : w ∈ l :=
  List.mem_of_elem_eq_true h

lemma disjCorePfx {w : String} (h : coreWords.contains w = true) :
    prefixWords.contains w = false := by
  have hb : ∀ x ∈ coreWords, prefixWords.contains x = false := by decide
  exact hb w (mem_of_containsStr h)

lemma disjCorePpfx {w : String} (h : coreWords.contains w = true) :
    prePrefixWords.contains w = false := by
  have hb : ∀ x ∈ coreWords, prePrefixWords.contains x = false := by decide
  exact hb w (mem_of_containsStr h)

lemma disjPfxPpfx {w : String} (h : prefixWords.contains w = true) :
    prePrefixWords.contains w = false := by
  have hb : ∀ x ∈ prefixWords, prePrefixWords.contains x = false := by decide
  exact hb w (mem_of_containsStr h)

/-- The entry classification of `filter_des` — the eager rule list
with an `IndexError` caught by `continue` — computes exactly the
spec's semantics, where an out-of-range rule counts as not matched
while the remaining rules are still evaluated. -/
lemma codeKeep_eq_specKeep (ws : List String) : codeKeep ws = specKeep ws := by
  rcases ws with _ | ⟨a, _ | ⟨b, _ | ⟨c, _ | ⟨d, rest⟩⟩⟩⟩
  · rfl
  · cases hca : coreWords.contains a <;>
    cases hpa : prefixWords.contains a <;>
    cases hqa : prePrefixWords.contains a <;>
      first
        | (simp only [codeKeep, anyRules, rule1, rule2, rule3, rule4, idx,
                      memAt, specKeep, hca, hpa, hqa]; decide)
        | (rw [disjCorePfx hca] at hpa; exact Bool.noConfusion hpa)
        | (rw [disjCorePpfx hca] at hqa; exact Bool.noConfusion hqa)
        | (rw [disjPfxPpfx hpa] at hqa; exact Bool.noConfusion hqa)
  · cases hca : coreWords.contains a <;>
    cases hpa : prefixWords.contains a <;>
    cases hqa : prePrefixWords.contains a <;>
    cases hcb : coreWords.contains b <;>
    cases hqb : prePrefixWords.contains b <;>
      first
        | (simp only [codeKeep, anyRules, rule1, rule2, rule3, rule4, idx,
                      memAt, specKeep, hca, hpa, hqa, hcb, hqb]; decide)
        | (rw [disjCorePfx hca] at hpa; exact Bool.noConfusion hpa)
        | (rw [disjCorePpfx hca] at hqa; exact Bool.noConfusion hqa)
        | (rw [disjPfxPpfx hpa] at hqa; exact Bool.noConfusion hqa)
        | (rw [disjCorePpfx hcb] at hqb; exact Bool.noConfusion hqb)
  · cases hca : coreWords.contains a <;>
    cases hpa : prefixWords.contains a <;>
    cases hqa : prePrefixWords.contains a <;>
    cases hcb : coreWords.contains b <;>
    cases hqb : prePrefixWords.contains b <;>
    cases hcc : coreWords.contains c <;>
      first
        | (simp only [codeKeep, anyRules, rule1, rule2, rule3, rule4, idx,
                      memAt, specKeep, hca, hpa, hqa, hcb, hqb, hcc]; decide)
        | (rw [disjCorePfx hca] at hpa; exact Bool.noConfusion hpa)
        | (rw [disjCorePpfx hca] at hqa; exact Bool.noConfusion hqa)
        | (rw [disjPfxPpfx hpa] at hqa; exact Bool.noConfusion hqa)
        | (rw [disjCorePpfx hcb] at hqb; exact Bool.noConfusion hqb)
  · cases hca : coreWords.contains a <;>
    cases hpa : prefixWords.contains a <;>
    cases hqa : prePrefixWords.contains a <;>
    cases hcb : coreWords.contains b <;>
    cases hqb : prePrefixWords.contains b <;>
    cases hcc : coreWords.contains c <;>
    cases hcd : coreWords.contains d <;>
      (simp only [codeKeep, anyRules, rule1, rule2, rule3, rule4, idx,
                  memAt, specKeep, hca, hpa, hqa, hcb, hqb, hcc, hcd]; decide)

/-- Every token produced by the whitespace split is whitespace-free. -/
lemma wordsAux_no_ws :
    ∀ (cs acc : List Char), (∀ c ∈ acc, c.isWhitespace = false) →
      ∀ t ∈ wordsAux cs acc, ∀ ch ∈ t.data, ch.isWhitespace = false := by
  intro cs
  induction cs with
  | nil =>
    intro acc hacc t ht ch hch
    by_cases he : acc.isEmpty
    · simp [wordsAux, he] at ht
    · rw [wordsAux, if_neg he] at ht
      rw [List.mem_singleton] at ht
      subst ht
      exact hacc ch (by simpa using hch)
  | cons c cs ih =>
    intro acc hacc t ht ch hch
    cases hw : c.isWhitespace
    · rw [wordsAux, hw] at ht
      simp only [Bool.false_eq_true, if_false] at ht
      have hacc2 : ∀ x ∈ c :: acc, x.isWhitespace = false := by
        intro x hx
        rcases List.mem_cons.mp hx with h | h
        · exact h ▸ hw
        · exact hacc x h
      exact ih (c :: acc) hacc2 t ht ch hch
    · rw [wordsAux, hw] at ht
      simp only [if_true] at ht
      by_cases he : acc.isEmpty
      · rw [if_pos he] at ht
        exact ih [] (by simp) t ht ch hch
      · rw [if_neg he] at ht
        rcases List.mem_cons.mp ht with h | h
        · subst h
          exact hacc ch (by simpa using hch)
        · exact ih [] (by simp) t h ch hch

/-- Tokens of `tokenize` contain no whitespace character. -/
lemma tokenize_no_ws (s : String) :
    ∀ t ∈ tokenize s, ∀ ch ∈ t.data, ch.isWhitespace = false :=
  wordsAux_no_ws s.data [] (by simp)

/-- When every entry's description resolves, `filter_des` returns
normally and computes the spec-side filter. -/
lemma filter_des_spec (des : List DocketEntry)
    (h : ∀ de ∈ des, (resolveDesc de).isSome) :
    filter_des des =
      .ok (des.filter fun de => specKeep (resolvedTokens de)) := by
  induction des with
  | nil => rfl
  | cons de rest ih =>
    obtain ⟨desc, hdesc⟩ :=
      Option.isSome_iff_exists.mp (h de (List.mem_cons_self de rest))
    have hrest := ih (fun x hx => h x (List.mem_cons_of_mem de hx))
    have htok : resolvedTokens de = tokenize (sLower desc) := by
      simp [resolvedTokens, hdesc]
    simp only [filter_des, hdesc, hrest, List.filter_cons, htok,
      codeKeep_eq_specKeep]

/-- When the first stages are empty and stage `i` has five or more
candidates, the loop gives up at stage `i`: no result, and exactly the
stages up to `i` queried. -/
lemma stageLoop_tooMany :
    ∀ (preds : List (CaseRecord → Bool)) (pool : List CaseRecord) (k i : Nat),
      i < preds.length →
      (∀ j, j < i →
        (pool.filter (preds.getD j (fun _ => false))).length = 0) →
      5 ≤ (pool.filter (preds.getD i (fun _ => false))).length →
      (stageLoop pool preds k).result = none ∧
      (stageLoop pool preds k).queried = List.range' k (i + 1) := by
  intro preds
  induction preds with
  | nil => intro pool k i hi _ _; simp at hi
  | cons pred rest ih =>
    intro pool k i hi h0 h5
    cases i with
    | zero =>
      have h5' : 5 ≤ (pool.filter pred).length := by simpa using h5
      rw [stageLoop]
      rw [if_neg (by omega), if_neg (by omega), if_neg (by omega)]
      exact ⟨rfl, rfl⟩
    | succ i =>
      have hz : (pool.filter pred).length = 0 := by
        simpa using h0 0 (Nat.succ_pos i)
      have hrec := ih pool (k + 1) i (by simpa using hi)
        (fun j hj => by simpa using h0 (j + 1) (by omega))
        (by simpa using h5)
      rw [stageLoop, if_pos hz]
      refine ⟨hrec.1, ?_⟩
      show k :: (stageLoop pool rest (k + 1)).queried = List.range' k (i + 2)
      rw [hrec.2]
      simp [List.range'_succ]

/-- When the first stages are empty and stage `i` has between one and
four candidates, the loop returns the head of stage `i`'s results and
queries exactly the stages up to `i`. -/
lemma stageLoop_pick :
    ∀ (preds : List (CaseRecord → Bool)) (pool : List CaseRecord) (k i : Nat),
      i < preds.length →
      (∀ j, j < i →
        (pool.filter (preds.getD j (fun _ => false))).length = 0) →
      1 ≤ (pool.filter (preds.getD i (fun _ => false))).length →
      (pool.filter (preds.getD i (fun _ => false))).length < 5 →
      (stageLoop pool preds k).result =
        (pool.filter (preds.getD i (fun _ => false))).head? ∧
      (stageLoop pool preds k).queried = List.range' k (i + 1) := by
  intro preds
  induction preds with
  | nil => intro pool k i hi _ _ _; simp at hi
  | cons pred rest ih =>
    intro pool k i hi h0 h1 h4
    cases i with
    | zero =>
      have h1' : 1 ≤ (pool.filter pred).length := by simpa using h1
      have h4' : (pool.filter pred).length < 5 := by simpa using h4
      rw [stageLoop]
      by_cases he : (pool.filter pred).length = 1
      · rw [if_neg (by omega), if_pos he]
        exact ⟨rfl, rfl⟩
      · rw [if_neg (by omega), if_neg he, if_pos h4']
        exact ⟨rfl, rfl⟩
    | succ i =>
      have hz : (pool.filter pred).length = 0 := by
        simpa using h0 0 (Nat.succ_pos i)
      have hrec := ih pool (k + 1) i (by simpa using hi)
        (fun j hj => by simpa using h0 (j + 1) (by omega))
        (by simpa using h1) (by simpa using h4)
      rw [stageLoop, if_pos hz]
      constructor
      · show (stageLoop pool rest (k + 1)).result = _
        rw [hrec.1]
        simp
      · show k :: (stageLoop pool rest (k + 1)).queried = List.range' k (i + 2)
        rw [hrec.2]
        simp [List.range'_succ]

/-- C1: contrary to the claim, a case name with two `" v. "`
separators still parses (maxsplit is 1), so the store is queried and a
match can be returned; and a case name with no separator raises
`ValueError` from the unpacking, so the warning logged is the
multiple-separator one — the `IndexError` handler carrying the
missing-separator message is unreachable. -/
theorem gsu_C1_divergence :
    countOcc " v. " (sLower rowTwoSep.case_name) = 2 ∧
    (lookup_row [] [] rowTwoSep).queried = [0, 1, 2, 3, 4] ∧
    (lookup_row [recFox] [] rowTwoSep).result = some recFox ∧
    countOcc " v. " (sLower rowNoSep.case_name) = 0 ∧
    (lookup_row [] [] rowNoSep).result = none ∧
    (lookup_row [] [] rowNoSep).queried = [] ∧
    (lookup_row [] [] rowNoSep).log = [LogMsg.multipleSep] ∧
    logOfErr ParseErr.indexError = LogMsg.missingSep :=
  ⟨by decide, by decide, by decide, by decide, by decide, by decide,
   by decide, rfl⟩

/-- C2 (counterexample): the plaintiff `"smith"` has one whitespace
token — fewer than the two tokens stage 5's `[1:2]` slice needs — yet
stage 5 is not skipped: after stages 1–4 are inconclusive it runs with
an empty plaintiff slice and returns a match. -/
theorem gsu_C2_counterexample :
    (tokenize "smith").length = 1 ∧
    parseName rowOneTok.case_name = .ok ("smith", "doe") ∧
    stageCount [recStage5] [] rowOneTok "smith" "doe" 0 = 0 ∧
    stageCount [recStage5] [] rowOneTok "smith" "doe" 1 = 0 ∧
    stageCount [recStage5] [] rowOneTok "smith" "doe" 2 = 0 ∧
    stageCount [recStage5] [] rowOneTok "smith" "doe" 3 = 0 ∧
    (lookup_row [recStage5] [] rowOneTok).result = some recStage5 ∧
    (lookup_row [recStage5] [] rowOneTok).queried = [0, 1, 2, 3, 4] :=
  ⟨by decide, rfl, by decide, by decide, by decide, by decide,
   by decide, by decide⟩

/-- C2 (amended): a slice that needs more tokens than the party string
has never raises — `make_party_q` simply conjoins over the tokens the
slice yields, and an empty slice makes the party predicate vacuously
true, so the stage still runs (and can match or abort on ambiguity)
instead of being skipped. -/
theorem gsu_C2_short_slice_vacuous (tbl : AbbrevTable) (party : String)
    (field : CaseRecord → String) (sl : Option Nat × Option Nat)
    (r : CaseRecord) (h : pySlice sl (tokenize party) = []) :
    make_party_q tbl party field sl r = true := by
  simp [make_party_q, h]

theorem gsu_C2_witness :
    pySlice (some 1, some 2) (tokenize "smith") = [] ∧
    make_party_q [] "smith" CaseRecord.plaintiff (some 1, some 2)
      recStage5 = true :=
  ⟨by decide,
   gsu_C2_short_slice_vacuous [] "smith" CaseRecord.plaintiff
     (some 1, some 2) recStage5 (by decide)⟩

/-- C3: when every stage before `i` is inconclusive (count 0) and
stage `i` yields five or more candidates, `lookup_row` returns "no
match" immediately: the result is `none` and exactly the stages
`0..i` were queried, so no broader stage is evaluated. -/
theorem gsu_C3_ambiguous_abort (db : List CaseRecord) (tbl : AbbrevTable)
    (row : Row) (p d : String) (i : Nat)
    (hp : parseName row.case_name = .ok (p, d)) (hi : i < 5)
    (h0 : ∀ j, j < i → stageCount db tbl row p d j = 0)
    (h5 : 5 ≤ stageCount db tbl row p d i) :
    (lookup_row db tbl row).result = none ∧
    (lookup_row db tbl row).queried = List.range (i + 1) := by
  have hlen : i < (stagePredList tbl p d).length := by
    simpa [stagePredList] using hi
  have hlu : lookup_row db tbl row =
      stageLoop (poolOf db row) (stagePredList tbl p d) 0 := by
    simp only [lookup_row, hp]
  rw [hlu, List.range_eq_range']
  exact stageLoop_tooMany (stagePredList tbl p d) (poolOf db row) 0 i hlen h0 h5

theorem gsu_C3_witness :
    (lookup_row dbFive [] rowExact).result = none ∧
    (lookup_row dbFive [] rowExact).queried = List.range 1 :=
  gsu_C3_ambiguous_abort dbFive [] rowExact "smith, john" "doe corp." 0
    rfl (by decide) (fun j hj => absurd hj (Nat.not_lt_zero j)) (by decide)

/-- C4: when every stage before `i` is inconclusive and stage `i` has
between one and four candidates, `lookup_row` returns the head of
stage `i`'s result list — the first element of the pool ordered by
`date_filed` descending — which has the most recent `date_filed` of
that stage's candidates; with exactly one candidate this is that
single candidate. -/
theorem gsu_C4_pick_most_recent (db : List CaseRecord) (tbl : AbbrevTable)
    (row : Row) (p d : String) (i : Nat)
    (hp : parseName row.case_name = .ok (p, d)) (hi : i < 5)
    (h0 : ∀ j, j < i → stageCount db tbl row p d j = 0)
    (h1 : 1 ≤ stageCount db tbl row p d i)
    (h4 : stageCount db tbl row p d i < 5) :
    ∃ c, (lookup_row db tbl row).result = some c ∧
      (stageResults db tbl row p d i).head? = some c ∧
      ∀ r ∈ stageResults db tbl row p d i, r.date_filed ≤ c.date_filed := by
  have hlen : i < (stagePredList tbl p d).length := by
    simpa [stagePredList] using hi
  have hmain := stageLoop_pick (stagePredList tbl p d) (poolOf db row) 0 i
    hlen h0 h1 h4
  have hlu : lookup_row db tbl row =
      stageLoop (poolOf db row) (stagePredList tbl p d) 0 := by
    simp only [lookup_row, hp]
  obtain ⟨c, tl, hct⟩ : ∃ c tl, stageResults db tbl row p d i = c :: tl := by
    cases hsr : stageResults db tbl row p d i with
    | nil =>
      exfalso
      rw [stageCount, hsr] at h1
      simp at h1
    | cons c tl => exact ⟨c, tl, rfl⟩
  have hsorted : (stageResults db tbl row p d i).Pairwise recGE :=
    List.Pairwise.filter _ (List.sorted_insertionSort recGE _)
  refine ⟨c, ?_, ?_, ?_⟩
  · rw [hlu, hmain.1]
    show (stageResults db tbl row p d i).head? = some c
    rw [hct]
    rfl
  · rw [hct]
    rfl
  · intro r hr
    rw [hct] at hr hsorted
    rcases List.mem_cons.mp hr with h | h
    · exact h ▸ le_refl _
    · exact (List.pairwise_cons.mp hsorted).1 r h

theorem gsu_C4_witness :
    (lookup_row dbThree [] rowExact).result = some recLatest := by
  obtain ⟨c, hc, hhead, _⟩ := gsu_C4_pick_most_recent dbThree [] rowExact
    "smith, john" "doe corp." 0 rfl (by decide)
    (fun j hj => absurd hj (Nat.not_lt_zero j)) (by decide) (by decide)
  have hh : (stageResults dbThree [] rowExact "smith, john" "doe corp." 0).head? =
      some recLatest := by decide
  rw [hh] at hhead
  exact hc.trans hhead.symm

/-- C5: `filter_des` keeps exactly the entries whose lowercased,
whitespace-tokenized (resolved) description satisfies at least one of
the four positional grammar rules, where a rule indexing past the end
of the token sequence counts as not matched and the other rules still
decide the entry; entries with no true rule are excluded and input
order is preserved (`List.filter`). -/
theorem gsu_C5_filter_matches_rules (des : List DocketEntry)
    (h : ∀ de ∈ des, (resolveDesc de).isSome) :
    filter_des des =
      .ok (des.filter fun de => specKeep (resolvedTokens de)) :=
  filter_des_spec des h

theorem gsu_C5_witness :
    filter_des [deOrder, deLetter, deFallback] =
      .ok [deOrder, deFallback] := by
  rw [gsu_C5_filter_matches_rules [deOrder, deLetter, deFallback] (by decide)]
  rfl

/-- C6: the per-token predicate is an OR over the token and all its
table expansions exactly when the token ends in a period and is a key
of the case-insensitive table, and the token alone otherwise; and
`make_party_q` holds exactly when every selected token's predicate
holds (the AND across tokens). -/
theorem gsu_C6_abbrev_expansion :
    (∀ (tbl : AbbrevTable) (word fv : String),
      tokenPred tbl word fv = true ↔
        (icontains fv word = true ∨
         (endsWithDot word = true ∧
          ∃ exps, lookupCI tbl word = some exps ∧
            ∃ ab ∈ exps, icontains fv ab = true))) ∧
    (∀ (tbl : AbbrevTable) (party : String) (field : CaseRecord → String)
        (sl : Option Nat × Option Nat) (r : CaseRecord),
      make_party_q tbl party field sl r = true ↔
        ∀ w ∈ pySlice sl (tokenize party),
          tokenPred tbl w (field r) = true) := by
  constructor
  · intro tbl word fv
    unfold tokenPred
    cases hd : endsWithDot word
    · simp [hd]
    · cases hl : lookupCI tbl word with
      | none => simp [hl]
      | some exps => simp [hl, List.any_eq_true]
  · intro tbl party field sl r
    simp [make_party_q, List.all_eq_true]

theorem gsu_C6_witness :
    make_party_q demoTbl "assn." CaseRecord.defendant (none, some 3)
      recAssn = true ∧
    icontains recAssn.defendant "assn." = false :=
  ⟨(gsu_C6_abbrev_expansion.2 demoTbl "assn." CaseRecord.defendant
      (none, some 3) recAssn).mpr (by decide),
   by decide⟩

/-- C7: the candidate pool holds exactly the records of the civil
dataset whose forum identifier equals the row's, filed in the window
of 5 × 365 days up to the row's date, bankruptcy jurisdiction
excluded, and it is ordered by `date_filed` descending. -/
theorem gsu_C7_pool (db : List CaseRecord) (row : Row) :
    List.Perm (poolOf db row) (db.filter (poolPred row)) ∧
    List.Sorted recGE (poolOf db row) ∧
    ∀ r : CaseRecord, r ∈ poolOf db row ↔
      (r ∈ db ∧ r.dataset_source = CV_2017 ∧
       r.district_fjc_court_id = row.ao_id ∧
       r.date_filed ≤ row.date ∧ row.date - 1825 ≤ r.date_filed ∧
       r.district_jurisdiction ≠ Jurisdiction.federalBankruptcy) := by
  refine ⟨List.perm_insertionSort recGE _,
    List.sorted_insertionSort recGE _, ?_⟩
  intro r
  rw [poolOf, List.mem_insertionSort, List.mem_filter]
  simp only [poolPred, Bool.and_eq_true, beq_iff_eq, decide_eq_true_eq,
    Bool.not_eq_true', beq_eq_false_iff_ne, ne_eq]
  tauto

theorem gsu_C7_witness : recFox ∈ poolOf [recFox] rowTwoSep :=
  ((gsu_C7_pool [recFox] rowTwoSep).2.2 recFox).mpr
    ⟨by decide, rfl, rfl, by decide, by decide, by decide⟩

/-- C8 (counterexample): an entry with an empty description and no
primary document makes `filter_des` raise to its caller. -/
theorem gsu_C8_counterexample :
    deBad.description = "" ∧
    deBad.recap_documents = [] ∧
    filter_des [deOrder, deBad] = .error () :=
  ⟨rfl, rfl, rfl⟩

/-- C8 (amended): `filter_des` never raises as long as every entry's
description resolves (non-empty, or empty with exactly one primary
document); entries it cannot classify are skipped — the output is a
sublist of the input — and processing continues.  When an entry's
empty-description fallback finds zero or several primary documents,
however, `filter_des` does raise to its caller. -/
theorem gsu_C8_no_raise_when_resolvable (des : List DocketEntry)
    (h : ∀ de ∈ des, (resolveDesc de).isSome) :
    ∃ good, filter_des des = .ok good ∧ good.Sublist des :=
  ⟨_, filter_des_spec des h, List.filter_sublist des⟩

theorem gsu_C8_witness :
    filter_des [deShort, deOrder] = .ok [deOrder] ∧
    List.Sublist [deOrder] [deShort, deOrder] := by
  obtain ⟨good, hok, hsub⟩ :=
    gsu_C8_no_raise_when_resolvable [deShort, deOrder] (by decide)
  exact ⟨rfl, by decide⟩

/-- C9: with exactly one filing entry the selection step returns that
entry unconditionally — no text classification, whatever its
description — and the grammar filter `filter_des` is applied exactly
when the set has two or more entries. -/
theorem gsu_C9_single_entry_kept :
    (∀ de : DocketEntry, select_good_des [de] = some (.ok [de])) ∧
    (∀ des : List DocketEntry, 2 ≤ des.length →
      select_good_des des = some (filter_des des)) := by
  constructor
  · intro de
    rfl
  · intro des h
    rcases des with _ | ⟨x, _ | ⟨y, rest⟩⟩
    · simp at h
    · simp at h
    · rfl

theorem gsu_C9_witness :
    select_good_des [deBad] = some (.ok [deBad]) ∧
    select_good_des [deOrder, deLetter] =
      some (filter_des [deOrder, deLetter]) :=
  ⟨gsu_C9_single_entry_kept.1 deBad,
   gsu_C9_single_entry_kept.2 [deOrder, deLetter] (by decide)⟩

/-- C10: the vocabulary element `"ordered "` carries a trailing space,
no token of the whitespace split ever equals it, and a multi-entry
description whose first token is `"ordered"` (matching no other rule)
is excluded by `filter_des`. -/
theorem gsu_C10_ordered_token_unreachable :
    coreWords.contains "ordered " = true ∧
    (∀ s : String, ∀ t ∈ tokenize s, t ≠ "ordered ") ∧
    filter_des [deOrdered, deOrder] = .ok [deOrder] := by
  refine ⟨by decide, ?_, rfl⟩
  intro s t ht heq
  subst heq
  have hws := tokenize_no_ws s "ordered " ht ' ' (by decide)
  exact absurd hws (by decide)

theorem gsu_C10_witness : "ordered" ≠ "ordered " :=
  gsu_C10_ordered_token_unreachable.2.1 "ordered adjudged and decreed"
    "ordered" (by decide)
